import Mathlib

/-!
# Verification of the disc-relaxation engine (`discs.py`)

Shallow embedding of the core of `src/lista6-final/discs.py`: vector and
disc primitives, the pairwise separator `uncollide`, the boundary
containment routine `push2area`, and the relaxation driver `process_list`.

Modelling conventions:
* Python floats are modelled as real numbers (`ℝ`); `(...)**.5` on a
  non-negative argument is `Real.sqrt`.
* Python lists of discs are Lean `List Disc`; in-place mutation of
  `dlist[n]` becomes the functional update `List.set`.  Reads `dlist[n]`
  are `dget` (out-of-range reads, which raise `IndexError` in Python,
  never occur at the call sites modelled; theorems carry in-range
  hypotheses where they matter).
* The `random.uniform` draws are modelled by oracle parameters: every
  potential call site of `uniform` receives the value it would draw.
  Since each draw is independent and uniform, quantifying over the oracle
  covers every possible run.
* The `while flag:` loop of `process_list` is modelled with explicit fuel;
  exhausted fuel yields the error value "fuel", which stands for
  "still running after that many passes", not for a Python exception.
* A Python division by zero raises `ZeroDivisionError`; the embedding
  tests the divisor and returns the error value "ZeroDivisionError".
* `print`/`warn` output is modelled by the `Msg` log (the wall-clock
  timing in the final message is real time and is not modelled, only the
  iteration count that the same message reports).
-/

/-- A vector `[x, y]` as produced by `make_vec`. -/
abbrev Vec : Type := ℝ × ℝ

/-- A disc `([x, y], r)` as produced by `make_disc`: center and radius. -/
abbrev Disc : Type := Vec × ℝ

/-- The area `[[x_0, x_m], [y_0, y_m]]`: bounds for each axis. -/
abbrev Area : Type := (ℝ × ℝ) × (ℝ × ℝ)

/-- `make_vec x y` forms the vector `[x, y]`. -/
def make_vec (x y : ℝ) : Vec := (x, y)

/-- `add_vec vec1 vec2 c` returns `vec1 + c·vec2`
(`c` defaults to 1 in the Python signature). -/
def add_vec (vec1 vec2 : Vec) (c : ℝ) : Vec :=
  (vec1.1 + c * vec2.1, vec1.2 + c * vec2.2)

/-- `make_disc x y r` forms the disc `([x, y], r)`. -/
def make_disc (x y r : ℝ) : Disc := ((x, y), r)

/-- `make_disc_vec vec r` forms the disc `(vec, r)`. -/
def make_disc_vec (vec : Vec) (r : ℝ) : Disc := (vec, r)

/-- `move_disc disc vec c` shifts the disc's center by `c·vec`
(in Python this mutates `disc[0]` in place; here it returns the moved disc). -/
def move_disc (disc : Disc) (vec : Vec) (c : ℝ) : Disc :=
  ((disc.1.1 + c * vec.1, disc.1.2 + c * vec.2), disc.2)

/-- `vec_len vec = (vec[0]**2 + vec[1]**2)**.5`, the Euclidean length. -/
noncomputable def vec_len (vec : Vec) : ℝ :=
  Real.sqrt (vec.1 ^ 2 + vec.2 ^ 2)

/-- `len_from_disc disc`: distance from the origin to the disc's center. -/
noncomputable def len_from_disc (disc : Disc) : ℝ :=
  Real.sqrt (disc.1.1 ^ 2 + disc.1.2 ^ 2)

/-- Read `dlist[n]` (all modelled call sites use in-range indices). -/
def dget (dlist : List Disc) (n : ℕ) : Disc :=
  dlist.getD n ((0, 0), 0)

/-- `uncollide dlist n1 n2 k`: remove the collision between discs `n1` and
`n2`.  `k` is the oracle value for the draw `uniform(1.001, 2)` consumed in
the overlap branch.  Returns the updated list and the changed flag, or the
error `"ZeroDivisionError"` when Python would raise on `x/(2*l_mid)` with a
zero divisor (coincident centers). -/
noncomputable def uncollide (dlist : List Disc) (n1 n2 : ℕ) (k : ℝ) :
    Except String (List Disc × Bool) :=
  let between := add_vec (dget dlist n2).1 (dget dlist n1).1 (-1)
  let r_sum := (dget dlist n1).2 + (dget dlist n2).2
  let l := vec_len between
  if r_sum > l then
    let mid : Vec := (between.1 / 2, between.2 / 2)
    let x := (r_sum - l) * k
    let l_mid := l / 2
    if 2 * l_mid = 0 then
      Except.error "ZeroDivisionError"
    else
      let dl1 := dlist.set n1 (move_disc (dget dlist n1) mid (-(x / (2 * l_mid))))
      let dl2 := dl1.set n2 (move_disc (dget dl1 n2) mid (x / (2 * l_mid)))
      Except.ok (dl2, true)
  else
    Except.ok (dlist, false)

/-- `push2area dlist n area kx ky`: push disc `n` back inside `area`.
`kx` and `ky` are the oracle values for the draws `uniform(1, 2)` consumed
by a correction on the first and second axis respectively.  Returns the
updated list and the changed flag. -/
noncomputable def push2area (dlist : List Disc) (n : ℕ) (area : Area) (kx ky : ℝ) :
    List Disc × Bool :=
  let d := dget dlist n
  let step1 : List Disc × Bool :=
    if d.1.1 - d.2 < area.1.1 then
      (dlist.set n ((area.1.1 + d.2 * kx, d.1.2), d.2), true)
    else if d.1.1 + d.2 > area.1.2 then
      (dlist.set n ((area.1.2 - d.2 * kx, d.1.2), d.2), true)
    else
      (dlist, false)
  let dl1 := step1.1
  let d1 := dget dl1 n
  if d1.1.2 - d1.2 < area.2.1 then
    (dl1.set n ((d1.1.1, area.2.1 + d1.2 * ky), d1.2), true)
  else if d1.1.2 + d1.2 > area.2.2 then
    (dl1.set n ((d1.1.1, area.2.2 - d1.2 * ky), d1.2), true)
  else
    (dl1, step1.2)

/-- `tuple(combinations(range(n), 2))`: all pairs `(i, j)` with
`i < j < n`, in lexicographic order. -/
def combs (n : ℕ) : List (ℕ × ℕ) :=
  (List.range n).flatMap fun i =>
    ((List.range n).filter fun j => decide (i < j)).map fun j => (i, j)

/-- One console/warning message emitted by `process_list`.  The elapsed
wall-clock time printed in the final message is not modelled; the
iteration count it reports is. -/
inductive Msg : Type where
  | removing (n : ℕ)      -- "Removing collisions of n elements..."
  | checking (pairs : ℕ)  -- "Checking p pairs of discs per iteration."
  | warned                -- the RuntimeWarning for m > 120
  | done (iters : ℕ)      -- "Done in ... sec. and m iterations."
  deriving DecidableEq

/-- The `for i in combs:` loop body of `process_list`: run `uncollide` on
every pair, threading the list and the change flag.  `ru m idx` is the
oracle draw for the `idx`-th pair in pass `m`. -/
noncomputable def unc_fold (ru : ℕ → ℕ → ℝ) (m : ℕ) (dlist : List Disc)
    (cs : List (ℕ × ℕ)) (idx : ℕ) (flag : Bool) :
    Except String (List Disc × Bool) :=
  match cs with
  | [] => Except.ok (dlist, flag)
  | c :: rest => do
    let r ← uncollide dlist c.1 c.2 (ru m idx)
    unc_fold ru m r.1 rest (idx + 1) (flag || r.2)

/-- The `for i in rng:` loop body of `process_list`: run `push2area` on
every disc, threading the list and the change flag.  `rpx m i` and
`rpy m i` are the oracle draws for disc `i` in pass `m`. -/
noncomputable def push_fold (rpx rpy : ℕ → ℕ → ℝ) (m : ℕ) (area : Area)
    (dlist : List Disc) (rg : List ℕ) (flag : Bool) : List Disc × Bool :=
  match rg with
  | [] => (dlist, flag)
  | n :: rest =>
    let r := push2area dlist n area (rpx m n) (rpy m n)
    push_fold rpx rpy m area r.1 rest (flag || r.2)

/-- The `while flag:` loop of `process_list`.  Each pass increments `m`,
sweeps all pairs then all discs, emits the `RuntimeWarning` when
`m > 120`, and stops when a full pass reported no change.  `fuel` bounds
the number of passes modelled; running out yields the error `"fuel"`
(the Python loop is still running), never a normal return. -/
noncomputable def run_loop (ru rpx rpy : ℕ → ℕ → ℝ) (area : Area)
    (cs : List (ℕ × ℕ)) (rg : List ℕ) (dlist : List Disc) (m : ℕ) :
    ℕ → Except String (List Disc × ℕ × List Msg)
  | 0 => Except.error "fuel"
  | fuel + 1 => do
    let m1 := m + 1
    let r1 ← unc_fold ru m1 dlist cs 0 false
    let r2 := push_fold rpx rpy m1 area r1.1 rg r1.2
    let ws : List Msg := if m1 > 120 then [Msg.warned] else []
    if r2.2 then
      let r3 ← run_loop ru rpx rpy area cs rg r2.1 m1 fuel
      Except.ok (r3.1, r3.2.1, ws ++ r3.2.2)
    else
      Except.ok (r2.1, m1, ws)

/-- What a finished call of `process_list` amounts to: the mutated disc
list, the final iteration counter `m`, the console/warning log, and the
value the function returns to its caller.  The Python function body has no
`return` statement, so that value is `None`; the field is typed
`Option (ℕ × ℝ)` so that "returned the pair (iterations, elapsed)" is
expressible, and the embedding always fills it with `none`. -/
structure PLResult : Type where
  dlist : List Disc
  iters : ℕ
  msgs : List Msg
  ret : Option (ℕ × ℝ)

/-- `process_list dlist area`: remove all collisions and push all discs
into `area`, by repeated full passes until a pass changes nothing.
`fuel` bounds the number of modelled passes; `ru`, `rpx`, `rpy` are the
random oracles. -/
noncomputable def process_list (fuel : ℕ) (ru rpx rpy : ℕ → ℕ → ℝ)
    (dlist : List Disc) (area : Area) : Except String PLResult :=
  let n := dlist.length
  let cs := combs n
  let rg := List.range n
  do
  let r ← run_loop ru rpx rpy area cs rg dlist 0 fuel
  Except.ok ⟨r.1, r.2.1,
    Msg.removing n :: Msg.checking ((n - 1) * n / 2) :: (r.2.2 ++ [Msg.done r.2.1]),
    none⟩

/-! ## Invariants established by the driver -/

/-- The pair `(i, j)` is separated: center distance at least the radius
sum (the negation of the `uncollide` overlap test for that pair). -/
def sep_ok (dlist : List Disc) (i j : ℕ) : Prop :=
  (dget dlist i).2 + (dget dlist j).2 ≤
    vec_len (add_vec (dget dlist j).1 (dget dlist i).1 (-1))

/-- No two distinct discs overlap: for all in-range `i ≠ j`, the distance
between the centers is at least the sum of the radii. -/
def no_overlap (dlist : List Disc) : Prop :=
  ∀ i j, i < dlist.length → j < dlist.length → i ≠ j → sep_ok dlist i j

/-- Disc `d` lies inside `area` on both axes (closed bounds), extent
`center ± radius`. -/
def in_area (d : Disc) (area : Area) : Prop :=
  area.1.1 ≤ d.1.1 - d.2 ∧ d.1.1 + d.2 ≤ area.1.2 ∧
  area.2.1 ≤ d.1.2 - d.2 ∧ d.1.2 + d.2 ≤ area.2.2

/-- Every disc of the list lies inside `area`. -/
def contained (dlist : List Disc) (area : Area) : Prop :=
  ∀ i, i < dlist.length → in_area (dget dlist i) area

/-- What the relaxation operators never touch: the list length and the
radius stored at every index (`dl1` before, `dl2` after). -/
def same_radii (dl1 dl2 : List Disc) : Prop :=
  dl2.length = dl1.length ∧ ∀ i, (dget dl2 i).2 = (dget dl1 i).2

/-! ## Basic lemmas about the primitives -/

theorem vec_len_nonneg (v : Vec) : 0 ≤ vec_len v :=
  Real.sqrt_nonneg _

theorem move_disc_radius (d : Disc) (v : Vec) (c : ℝ) :
    (move_disc d v c).2 = d.2 := rfl

theorem dget_set_self (l : List Disc) (n : ℕ) (d : Disc) (h : n < l.length) :
    dget (l.set n d) n = d := by
  simp [dget, List.getD, List.getElem?_set_self, h]

theorem dget_set_ne (l : List Disc) (m n : ℕ) (d : Disc) (h : n ≠ m) :
    dget (l.set m d) n = dget l n := by
  simp [dget, List.getD, List.getElem?_set_ne (by omega : m ≠ n)]

theorem mem_combs (n i j : ℕ) : (i, j) ∈ combs n ↔ i < j ∧ j < n := by
  simp only [combs, List.mem_flatMap, List.mem_map, List.mem_filter,
    List.mem_range, decide_eq_true_eq, Prod.mk.injEq]
  constructor
  · rintro ⟨a, _, b, ⟨hb, hab⟩, rfl, rfl⟩
    exact ⟨hab, hb⟩
  · rintro ⟨hij, hj⟩
    exact ⟨i, lt_trans hij hj, j, ⟨hj, hij⟩, rfl, rfl⟩

theorem vec_len_eq_zero_iff (v : Vec) : vec_len v = 0 ↔ v.1 = 0 ∧ v.2 = 0 := by
  rw [vec_len, Real.sqrt_eq_zero']
  constructor
  · intro h
    constructor <;> nlinarith [sq_nonneg v.1, sq_nonneg v.2]
  · rintro ⟨h1, h2⟩
    simp [h1, h2]

theorem vec_len_smul (t : ℝ) (v : Vec) :
    vec_len (t * v.1, t * v.2) = |t| * vec_len v := by
  rw [vec_len, vec_len]
  have h : (t * v.1) ^ 2 + (t * v.2) ^ 2 = t ^ 2 * (v.1 ^ 2 + v.2 ^ 2) := by ring
  rw [h, Real.sqrt_mul (sq_nonneg t), Real.sqrt_sq_eq_abs]

theorem vec_len_sub_comm (a b : Vec) :
    vec_len (add_vec a b (-1)) = vec_len (add_vec b a (-1)) := by
  rw [vec_len, vec_len, add_vec, add_vec]
  ring_nf

/-- In the no-overlap branch (`r_sum ≤ l`), `uncollide` returns the list
unchanged with flag `False`. -/
theorem uncollide_no_overlap_eq (dlist : List Disc) (n1 n2 : ℕ) (k : ℝ)
    (h : (dget dlist n1).2 + (dget dlist n2).2 ≤
      vec_len (add_vec (dget dlist n2).1 (dget dlist n1).1 (-1))) :
    uncollide dlist n1 n2 k = Except.ok (dlist, false) := by
  rw [uncollide]
  exact if_neg (not_lt.mpr h)

/-- Inversion: a `False` flag out of `uncollide` means the no-overlap
branch ran, so the list is unchanged and the pair is separated. -/
theorem uncollide_ok_false (dlist : List Disc) (n1 n2 : ℕ) (k : ℝ)
    (dl2 : List Disc)
    (h : uncollide dlist n1 n2 k = Except.ok (dl2, false)) :
    dl2 = dlist ∧
      (dget dlist n1).2 + (dget dlist n2).2 ≤
        vec_len (add_vec (dget dlist n2).1 (dget dlist n1).1 (-1)) := by
  simp only [uncollide] at h
  split at h
  · next hlt =>
    split at h
    · exact absurd h (by simp)
    · simp only [Except.ok.injEq, Prod.mk.injEq] at h
      exact absurd h.2 (by simp)
  · next hge =>
    simp only [Except.ok.injEq, Prod.mk.injEq] at h
    exact ⟨h.1.symm, not_lt.mp hge⟩

/-- In the overlap branch with a non-degenerate direction, `uncollide`
returns exactly the doubly-updated list (divisor `2·(l/2)` rewritten
to `l`). -/
theorem uncollide_overlap_eq (dlist : List Disc) (n1 n2 : ℕ) (k : ℝ)
    (hover : vec_len (add_vec (dget dlist n2).1 (dget dlist n1).1 (-1)) <
      (dget dlist n1).2 + (dget dlist n2).2)
    (hl : vec_len (add_vec (dget dlist n2).1 (dget dlist n1).1 (-1)) ≠ 0) :
    uncollide dlist n1 n2 k =
      Except.ok
        ((dlist.set n1 (move_disc (dget dlist n1)
            ((add_vec (dget dlist n2).1 (dget dlist n1).1 (-1)).1 / 2,
             (add_vec (dget dlist n2).1 (dget dlist n1).1 (-1)).2 / 2)
            (-((((dget dlist n1).2 + (dget dlist n2).2 -
                vec_len (add_vec (dget dlist n2).1 (dget dlist n1).1 (-1))) * k) /
              vec_len (add_vec (dget dlist n2).1 (dget dlist n1).1 (-1)))))).set n2
          (move_disc
            (dget (dlist.set n1 (move_disc (dget dlist n1)
              ((add_vec (dget dlist n2).1 (dget dlist n1).1 (-1)).1 / 2,
               (add_vec (dget dlist n2).1 (dget dlist n1).1 (-1)).2 / 2)
              (-((((dget dlist n1).2 + (dget dlist n2).2 -
                  vec_len (add_vec (dget dlist n2).1 (dget dlist n1).1 (-1))) * k) /
                vec_len (add_vec (dget dlist n2).1 (dget dlist n1).1 (-1)))))) n2)
            ((add_vec (dget dlist n2).1 (dget dlist n1).1 (-1)).1 / 2,
             (add_vec (dget dlist n2).1 (dget dlist n1).1 (-1)).2 / 2)
            ((((dget dlist n1).2 + (dget dlist n2).2 -
                vec_len (add_vec (dget dlist n2).1 (dget dlist n1).1 (-1))) * k) /
              vec_len (add_vec (dget dlist n2).1 (dget dlist n1).1 (-1)))),
        true) := by
  simp only [uncollide]
  rw [if_pos hover]
  have h2 : (2 : ℝ) * (vec_len (add_vec (dget dlist n2).1 (dget dlist n1).1 (-1)) / 2) =
      vec_len (add_vec (dget dlist n2).1 (dget dlist n1).1 (-1)) := by ring
  rw [h2, if_neg hl]

theorem vec_len_between_ne_zero (a b : Vec) (h : a ≠ b) :
    vec_len (add_vec b a (-1)) ≠ 0 := by
  intro h0
  rw [vec_len_eq_zero_iff] at h0
  simp only [add_vec] at h0
  exact h (Prod.ext_iff.mpr ⟨by linarith [h0.1], by linarith [h0.2]⟩)

/-- Full description of the overlap branch: result flag `True`, the two
discs move by `±c·mid` where `c = (r_sum − l)·k / l`, every other entry
and both radii are untouched, and the length is preserved. -/
theorem uncollide_overlap_spec (dlist : List Disc) (n1 n2 : ℕ)
    (k : ℝ) (bet : Vec) (l s c : ℝ)
    (hbet : bet = add_vec (dget dlist n2).1 (dget dlist n1).1 (-1))
    (hleq : l = vec_len bet)
    (hs : s = (dget dlist n1).2 + (dget dlist n2).2)
    (hc : c = (s - l) * k / l)
    (h1 : n1 < dlist.length) (h2 : n2 < dlist.length) (hne : n1 ≠ n2)
    (hlz : l ≠ 0) (hover : l < s) :
    ∃ dl2, uncollide dlist n1 n2 k = Except.ok (dl2, true) ∧
      dl2.length = dlist.length ∧
      dget dl2 n1 = move_disc (dget dlist n1) (bet.1 / 2, bet.2 / 2) (-c) ∧
      dget dl2 n2 = move_disc (dget dlist n2) (bet.1 / 2, bet.2 / 2) c ∧
      ∀ i, i ≠ n1 → i ≠ n2 → dget dl2 i = dget dlist i := by
  subst hbet hleq hs hc
  refine ⟨_, uncollide_overlap_eq dlist n1 n2 k hover hlz, ?_, ?_, ?_, ?_⟩
  · rw [List.length_set, List.length_set]
  · rw [dget_set_ne _ _ _ _ hne, dget_set_self _ _ _ h1]
  · rw [dget_set_self _ _ _ (by rw [List.length_set]; exact h2),
      dget_set_ne _ _ _ _ (Ne.symm hne)]
  · intro i hi1 hi2
    rw [dget_set_ne _ _ _ _ hi2, dget_set_ne _ _ _ _ hi1]

/-- C6: for every pair of discs whose center distance is at least the sum
of their radii (tangency included), `uncollide` returns `False` and leaves
the disc list (all centers and radii) unchanged. -/
theorem uncollide_no_overlap_noop (dlist : List Disc) (n1 n2 : ℕ) (k : ℝ)
    (h : (dget dlist n1).2 + (dget dlist n2).2 ≤
      vec_len (add_vec (dget dlist n2).1 (dget dlist n1).1 (-1))) :
    uncollide dlist n1 n2 k = Except.ok (dlist, false) :=
  uncollide_no_overlap_eq dlist n1 n2 k h

/-- Witness for C6: radius-1 discs at (0,0) and (3,0), distance 3 ≥ 2. -/
theorem uncollide_no_overlap_noop_witness :
    ((dget [((0, 0), 1), ((3, 0), 1)] 0).2 + (dget [((0, 0), 1), ((3, 0), 1)] 1).2 ≤
      vec_len (add_vec (dget [((0, 0), 1), ((3, 0), 1)] 1).1
        (dget [((0, 0), 1), ((3, 0), 1)] 0).1 (-1))) ∧
    uncollide [((0, 0), 1), ((3, 0), 1)] 0 1 (3 / 2) =
      Except.ok ([((0, 0), 1), ((3, 0), 1)], false) := by
  have hle : ((dget [((0, 0), 1), ((3, 0), 1)] 0).2 +
      (dget [((0, 0), 1), ((3, 0), 1)] 1).2 ≤
      vec_len (add_vec (dget [((0, 0), 1), ((3, 0), 1)] 1).1
        (dget [((0, 0), 1), ((3, 0), 1)] 0).1 (-1))) := by
    show (1 : ℝ) + 1 ≤ vec_len (add_vec (3, 0) (0, 0) (-1))
    have h3 : add_vec ((3 : ℝ), (0 : ℝ)) (0, 0) (-1) = ((3 : ℝ), (0 : ℝ)) := by
      simp only [add_vec, Prod.mk.injEq]
      constructor <;> ring
    rw [h3, vec_len]
    rw [show ((3 : ℝ) ^ 2 + 0 ^ 2 : ℝ) = 3 ^ 2 by norm_num,
      Real.sqrt_sq (by norm_num : (0 : ℝ) ≤ 3)]
    norm_num
  exact ⟨hle, uncollide_no_overlap_noop _ 0 1 _ hle⟩

/-- C4: for coincident centers with positive radius sum, `uncollide` is an
explicit raise (Python's `ZeroDivisionError` on `x/(2*l_mid)`), not a
silent NaN/garbage result. -/
theorem uncollide_coincident_raises (dlist : List Disc) (n1 n2 : ℕ) (k : ℝ)
    (hcent : (dget dlist n1).1 = (dget dlist n2).1)
    (hrs : 0 < (dget dlist n1).2 + (dget dlist n2).2) :
    uncollide dlist n1 n2 k = Except.error "ZeroDivisionError" := by
  have hbet : add_vec (dget dlist n2).1 (dget dlist n1).1 (-1) = ((0 : ℝ), (0 : ℝ)) := by
    rw [← hcent]
    simp only [add_vec, Prod.mk.injEq]
    constructor <;> ring
  have hl0 : vec_len (add_vec (dget dlist n2).1 (dget dlist n1).1 (-1)) = 0 := by
    rw [hbet, vec_len]
    norm_num
  simp only [uncollide, hl0]
  rw [if_pos hrs, if_pos (by norm_num)]

/-- Witness for C4: two radius-1 discs both centered at (5,5). -/
theorem uncollide_coincident_raises_witness :
    ((dget [((5, 5), 1), ((5, 5), 1)] 0).1 = (dget [((5, 5), 1), ((5, 5), 1)] 1).1) ∧
    (0 < (dget [((5, 5), 1), ((5, 5), 1)] 0).2 + (dget [((5, 5), 1), ((5, 5), 1)] 1).2) ∧
    uncollide [((5, 5), 1), ((5, 5), 1)] 0 1 (3 / 2) =
      Except.error "ZeroDivisionError" := by
  refine ⟨rfl, by norm_num [dget], ?_⟩
  exact uncollide_coincident_raises _ 0 1 _ rfl (by norm_num [dget])

/-- C2: one `uncollide` call on overlapping discs with distinct centers and
a draw `k ∈ (1.001, 2)` returns `True` and leaves the centers at distance
`dist + (r_sum − dist)·k ≥ r_sum`. -/
theorem uncollide_separates (dlist : List Disc) (n1 n2 : ℕ) (k : ℝ)
    (bet : Vec) (l s : ℝ)
    (hbet : bet = add_vec (dget dlist n2).1 (dget dlist n1).1 (-1))
    (hleq : l = vec_len bet)
    (hs : s = (dget dlist n1).2 + (dget dlist n2).2)
    (h1 : n1 < dlist.length) (h2 : n2 < dlist.length) (hne : n1 ≠ n2)
    (hcent : (dget dlist n1).1 ≠ (dget dlist n2).1)
    (hover : l < s) (hk1 : 1.001 < k) (hk2 : k < 2) :
    ∃ dl2, uncollide dlist n1 n2 k = Except.ok (dl2, true) ∧
      vec_len (add_vec (dget dl2 n2).1 (dget dl2 n1).1 (-1)) = l + (s - l) * k ∧
      s ≤ vec_len (add_vec (dget dl2 n2).1 (dget dl2 n1).1 (-1)) := by
  have hlz : l ≠ 0 := by
    rw [hleq, hbet]; exact vec_len_between_ne_zero _ _ hcent
  have hlnn : 0 ≤ l := by rw [hleq]; exact vec_len_nonneg bet
  have hlpos : 0 < l := lt_of_le_of_ne hlnn (Ne.symm hlz)
  obtain ⟨dl2, hok, _, hg1, hg2, _⟩ :=
    uncollide_overlap_spec dlist n1 n2 k bet l s ((s - l) * k / l)
      hbet hleq hs rfl h1 h2 hne hlz hover
  have hb1 : bet.1 = (dget dlist n2).1.1 + (-1) * (dget dlist n1).1.1 := by
    rw [hbet]; simp only [add_vec]
  have hb2 : bet.2 = (dget dlist n2).1.2 + (-1) * (dget dlist n1).1.2 := by
    rw [hbet]; simp only [add_vec]
  have hnew : add_vec (dget dl2 n2).1 (dget dl2 n1).1 (-1) =
      ((1 + (s - l) * k / l) * bet.1, (1 + (s - l) * k / l) * bet.2) := by
    rw [hg1, hg2]
    simp only [move_disc, add_vec]
    rw [Prod.mk.injEq, hb1, hb2]
    constructor <;> ring
  have hpos : 0 < 1 + (s - l) * k / l := by
    have : 0 < (s - l) * k / l :=
      div_pos (mul_pos (by linarith) (by linarith)) hlpos
    linarith
  have hdist : vec_len (add_vec (dget dl2 n2).1 (dget dl2 n1).1 (-1)) =
      l + (s - l) * k := by
    rw [hnew, vec_len_smul, abs_of_pos hpos, ← hleq]
    field_simp
  refine ⟨dl2, hok, hdist, ?_⟩
  rw [hdist]
  nlinarith [mul_pos (sub_pos.mpr hover) (by linarith : (0 : ℝ) < k - 1)]

/-- Witness for C2: radius-1 discs at (0,0) and (1,0), draw k = 3/2. -/
theorem uncollide_separates_witness :
    (vec_len (add_vec (dget [((0, 0), 1), ((1, 0), 1)] 1).1
        (dget [((0, 0), 1), ((1, 0), 1)] 0).1 (-1)) <
      (dget [((0, 0), 1), ((1, 0), 1)] 0).2 + (dget [((0, 0), 1), ((1, 0), 1)] 1).2) ∧
    (1.001 < (3 / 2 : ℝ)) ∧
    ∃ dl2, uncollide [((0, 0), 1), ((1, 0), 1)] 0 1 (3 / 2) = Except.ok (dl2, true) ∧
      vec_len (add_vec (dget dl2 1).1 (dget dl2 0).1 (-1)) =
        vec_len (add_vec (dget [((0, 0), 1), ((1, 0), 1)] 1).1
          (dget [((0, 0), 1), ((1, 0), 1)] 0).1 (-1)) +
        ((dget [((0, 0), 1), ((1, 0), 1)] 0).2 + (dget [((0, 0), 1), ((1, 0), 1)] 1).2 -
          vec_len (add_vec (dget [((0, 0), 1), ((1, 0), 1)] 1).1
            (dget [((0, 0), 1), ((1, 0), 1)] 0).1 (-1))) * (3 / 2) ∧
      (dget [((0, 0), 1), ((1, 0), 1)] 0).2 + (dget [((0, 0), 1), ((1, 0), 1)] 1).2 ≤
        vec_len (add_vec (dget dl2 1).1 (dget dl2 0).1 (-1)) := by
  have hlen1 : vec_len (add_vec (dget [((0, 0), 1), ((1, 0), 1)] 1).1
      (dget [((0, 0), 1), ((1, 0), 1)] 0).1 (-1)) = 1 := by
    show vec_len (add_vec (1, 0) (0, 0) (-1)) = 1
    have hb : add_vec ((1 : ℝ), (0 : ℝ)) (0, 0) (-1) = ((1 : ℝ), (0 : ℝ)) := by
      simp only [add_vec, Prod.mk.injEq]
      constructor <;> ring
    rw [hb, vec_len]
    norm_num
  have hover : vec_len (add_vec (dget [((0, 0), 1), ((1, 0), 1)] 1).1
      (dget [((0, 0), 1), ((1, 0), 1)] 0).1 (-1)) <
      (dget [((0, 0), 1), ((1, 0), 1)] 0).2 + (dget [((0, 0), 1), ((1, 0), 1)] 1).2 := by
    rw [hlen1]
    show (1 : ℝ) < 1 + 1
    norm_num
  refine ⟨hover, by norm_num, ?_⟩
  exact uncollide_separates [((0, 0), 1), ((1, 0), 1)] 0 1 (3 / 2) _ _ _
    rfl rfl rfl (by norm_num) (by norm_num) (by norm_num)
    (by show ((0 : ℝ), (0 : ℝ)) ≠ ((1 : ℝ), (0 : ℝ)); norm_num [Prod.ext_iff])
    hover (by norm_num) (by norm_num)

/-- C8: one `uncollide` call on overlapping discs with distinct centers
preserves the vector sum of the two centers (each displacement cancels the
other), for every draw `k`. -/
theorem uncollide_preserves_center_sum (dlist : List Disc) (n1 n2 : ℕ) (k : ℝ)
    (h1 : n1 < dlist.length) (h2 : n2 < dlist.length) (hne : n1 ≠ n2)
    (hcent : (dget dlist n1).1 ≠ (dget dlist n2).1)
    (hover : vec_len (add_vec (dget dlist n2).1 (dget dlist n1).1 (-1)) <
      (dget dlist n1).2 + (dget dlist n2).2) :
    ∃ dl2, uncollide dlist n1 n2 k = Except.ok (dl2, true) ∧
      (dget dl2 n1).1.1 + (dget dl2 n2).1.1 =
        (dget dlist n1).1.1 + (dget dlist n2).1.1 ∧
      (dget dl2 n1).1.2 + (dget dl2 n2).1.2 =
        (dget dlist n1).1.2 + (dget dlist n2).1.2 := by
  have hlz := vec_len_between_ne_zero _ _ hcent
  obtain ⟨dl2, hok, _, hg1, hg2, _⟩ :=
    uncollide_overlap_spec dlist n1 n2 k _ _ _ _ rfl rfl rfl rfl h1 h2 hne hlz hover
  refine ⟨dl2, hok, ?_, ?_⟩ <;>
    (rw [hg1, hg2]; simp only [move_disc]; try ring)

/-- Witness for C8: radius-1 discs at (0,0) and (1,0), draw k = 5. -/
theorem uncollide_preserves_center_sum_witness :
    (vec_len (add_vec (dget [((0, 0), 1), ((1, 0), 1)] 1).1
        (dget [((0, 0), 1), ((1, 0), 1)] 0).1 (-1)) <
      (dget [((0, 0), 1), ((1, 0), 1)] 0).2 + (dget [((0, 0), 1), ((1, 0), 1)] 1).2) ∧
    ∃ dl2, uncollide [((0, 0), 1), ((1, 0), 1)] 0 1 5 = Except.ok (dl2, true) ∧
      (dget dl2 0).1.1 + (dget dl2 1).1.1 =
        (dget [((0, 0), 1), ((1, 0), 1)] 0).1.1 + (dget [((0, 0), 1), ((1, 0), 1)] 1).1.1 ∧
      (dget dl2 0).1.2 + (dget dl2 1).1.2 =
        (dget [((0, 0), 1), ((1, 0), 1)] 0).1.2 + (dget [((0, 0), 1), ((1, 0), 1)] 1).1.2 := by
  have hover : vec_len (add_vec (dget [((0, 0), 1), ((1, 0), 1)] 1).1
      (dget [((0, 0), 1), ((1, 0), 1)] 0).1 (-1)) <
      (dget [((0, 0), 1), ((1, 0), 1)] 0).2 + (dget [((0, 0), 1), ((1, 0), 1)] 1).2 := by
    have hb : add_vec ((1 : ℝ), (0 : ℝ)) (0, 0) (-1) = ((1 : ℝ), (0 : ℝ)) := by
      simp only [add_vec, Prod.mk.injEq]
      constructor <;> ring
    show vec_len (add_vec (1, 0) (0, 0) (-1)) < 1 + 1
    rw [hb, vec_len]
    norm_num
  refine ⟨hover, ?_⟩
  exact uncollide_preserves_center_sum [((0, 0), 1), ((1, 0), 1)] 0 1 5
    (by norm_num) (by norm_num) (by norm_num)
    (by show ((0 : ℝ), (0 : ℝ)) ≠ ((1 : ℝ), (0 : ℝ)); norm_num [Prod.ext_iff])
    hover

/-- A disc fully inside the area is left alone: both axis checks fail and
`push2area` returns the unchanged list with flag `False`. -/
theorem push2area_inside_eq (dlist : List Disc) (n : ℕ) (area : Area) (kx ky : ℝ)
    (h : in_area (dget dlist n) area) :
    push2area dlist n area kx ky = (dlist, false) := by
  obtain ⟨h1, h2, h3, h4⟩ := h
  simp only [push2area]
  rw [if_neg (not_lt.mpr h1), if_neg (not_lt.mpr h2)]
  rw [if_neg (not_lt.mpr h3), if_neg (not_lt.mpr h4)]

/-- Any bound violation makes `push2area` report a change. -/
theorem push2area_snd_true (dlist : List Disc) (n : ℕ) (area : Area) (kx ky : ℝ)
    (h : (dget dlist n).1.1 - (dget dlist n).2 < area.1.1 ∨
         area.1.2 < (dget dlist n).1.1 + (dget dlist n).2 ∨
         (dget dlist n).1.2 - (dget dlist n).2 < area.2.1 ∨
         area.2.2 < (dget dlist n).1.2 + (dget dlist n).2) :
    (push2area dlist n area kx ky).2 = true := by
  simp only [push2area]
  rcases h with hx | hx | hy | hy
  · rw [if_pos hx]
    split_ifs <;> rfl
  · by_cases hx1 : (dget dlist n).1.1 - (dget dlist n).2 < area.1.1
    · rw [if_pos hx1]; split_ifs <;> rfl
    · rw [if_neg hx1, if_pos hx]; split_ifs <;> rfl
  · by_cases hx1 : (dget dlist n).1.1 - (dget dlist n).2 < area.1.1
    · rw [if_pos hx1]; split_ifs <;> rfl
    · by_cases hx2 : area.1.2 < (dget dlist n).1.1 + (dget dlist n).2
      · rw [if_neg hx1, if_pos hx2]; split_ifs <;> rfl
      · rw [if_neg hx1, if_neg hx2, if_pos hy]
  · by_cases hx1 : (dget dlist n).1.1 - (dget dlist n).2 < area.1.1
    · rw [if_pos hx1]; split_ifs <;> rfl
    · by_cases hx2 : area.1.2 < (dget dlist n).1.1 + (dget dlist n).2
      · rw [if_neg hx1, if_pos hx2]; split_ifs <;> rfl
      · rw [if_neg hx1, if_neg hx2]
        by_cases hy1 : (dget dlist n).1.2 - (dget dlist n).2 < area.2.1
        · rw [if_pos hy1]
        · rw [if_neg hy1, if_pos hy]

/-- Closed form of the disc `push2area` leaves at index `n`: each axis
independently clamped (with its own draw), radius untouched. -/
theorem push2area_dget (dlist : List Disc) (n : ℕ) (area : Area) (kx ky : ℝ)
    (hn : n < dlist.length) :
    dget (push2area dlist n area kx ky).1 n =
      ((if (dget dlist n).1.1 - (dget dlist n).2 < area.1.1
          then area.1.1 + (dget dlist n).2 * kx
        else if (dget dlist n).1.1 + (dget dlist n).2 > area.1.2
          then area.1.2 - (dget dlist n).2 * kx
        else (dget dlist n).1.1,
        if (dget dlist n).1.2 - (dget dlist n).2 < area.2.1
          then area.2.1 + (dget dlist n).2 * ky
        else if (dget dlist n).1.2 + (dget dlist n).2 > area.2.2
          then area.2.2 - (dget dlist n).2 * ky
        else (dget dlist n).1.2),
       (dget dlist n).2) := by
  simp only [push2area]
  by_cases hx1 : (dget dlist n).1.1 - (dget dlist n).2 < area.1.1
  · rw [if_pos hx1, dget_set_self _ _ _ hn]
    by_cases hy1 : (dget dlist n).1.2 - (dget dlist n).2 < area.2.1
    · rw [if_pos hy1, dget_set_self _ _ _ (by rw [List.length_set]; exact hn)]
      simp [hx1, hy1]
    · rw [if_neg hy1]
      by_cases hy2 : (dget dlist n).1.2 + (dget dlist n).2 > area.2.2
      · rw [if_pos hy2, dget_set_self _ _ _ (by rw [List.length_set]; exact hn)]
        simp [hx1, hy1, hy2]
      · rw [if_neg hy2, dget_set_self _ _ _ hn]
        simp [hx1, hy1, hy2]
  · rw [if_neg hx1]
    by_cases hx2 : (dget dlist n).1.1 + (dget dlist n).2 > area.1.2
    · rw [if_pos hx2, dget_set_self _ _ _ hn]
      by_cases hy1 : (dget dlist n).1.2 - (dget dlist n).2 < area.2.1
      · rw [if_pos hy1, dget_set_self _ _ _ (by rw [List.length_set]; exact hn)]
        simp [hx1, hx2, hy1]
      · rw [if_neg hy1]
        by_cases hy2 : (dget dlist n).1.2 + (dget dlist n).2 > area.2.2
        · rw [if_pos hy2, dget_set_self _ _ _ (by rw [List.length_set]; exact hn)]
          simp [hx1, hx2, hy1, hy2]
        · rw [if_neg hy2, dget_set_self _ _ _ hn]
          simp [hx1, hx2, hy1, hy2]
    · rw [if_neg hx2]
      by_cases hy1 : (dget dlist n).1.2 - (dget dlist n).2 < area.2.1
      · rw [if_pos hy1, dget_set_self _ _ _ hn]
        simp [hx1, hx2, hy1]
      · rw [if_neg hy1]
        by_cases hy2 : (dget dlist n).1.2 + (dget dlist n).2 > area.2.2
        · rw [if_pos hy2, dget_set_self _ _ _ hn]
          simp [hx1, hx2, hy1, hy2]
        · rw [if_neg hy2]
          simp [hx1, hx2, hy1, hy2]

/-- `push2area` never changes the list length. -/
theorem push2area_length (dlist : List Disc) (n : ℕ) (area : Area) (kx ky : ℝ) :
    (push2area dlist n area kx ky).1.length = dlist.length := by
  simp only [push2area]
  split_ifs <;> simp [List.length_set]

/-- `push2area` touches no index other than `n`. -/
theorem push2area_frame (dlist : List Disc) (n : ℕ) (area : Area) (kx ky : ℝ)
    (i : ℕ) (hi : i ≠ n) :
    dget (push2area dlist n area kx ky).1 i = dget dlist i := by
  simp only [push2area]
  split_ifs <;> simp [dget_set_ne _ _ _ _ hi]

/-- Out-of-range index: every `List.set` is a no-op, the list survives. -/
theorem push2area_oob (dlist : List Disc) (n : ℕ) (area : Area) (kx ky : ℝ)
    (hn : dlist.length ≤ n) :
    (push2area dlist n area kx ky).1 = dlist := by
  simp only [push2area]
  split_ifs <;> simp [List.set_eq_of_length_le, hn,
    List.set_eq_of_length_le (by simp [List.length_set, hn] : (dlist.set n
      ((area.1.1 + (dget dlist n).2 * kx, (dget dlist n).1.2), (dget dlist n).2)).length ≤ n)]

/-- Setting an index to a disc of the same radius preserves all radii. -/
theorem dget_set_radius (l : List Disc) (n : ℕ) (d : Disc)
    (hd : d.2 = (dget l n).2) (i : ℕ) :
    (dget (l.set n d) i).2 = (dget l i).2 := by
  by_cases hi : i = n
  · subst hi
    by_cases hn : i < l.length
    · rw [dget_set_self _ _ _ hn, hd]
    · rw [List.set_eq_of_length_le (le_of_not_lt hn)]
  · rw [dget_set_ne _ _ _ _ hi]

/-- `push2area` preserves every radius. -/
theorem push2area_radii (dlist : List Disc) (n : ℕ) (area : Area) (kx ky : ℝ)
    (i : ℕ) :
    (dget (push2area dlist n area kx ky).1 i).2 = (dget dlist i).2 := by
  by_cases hi : i = n
  · subst hi
    by_cases hn : i < dlist.length
    · rw [push2area_dget _ _ _ _ _ hn]
    · rw [push2area_oob _ _ _ _ _ (le_of_not_lt hn)]
  · rw [push2area_frame _ _ _ _ _ _ hi]

/-- Flag `False` out of `push2area` means the disc was already inside and
nothing moved. -/
theorem push2area_false_inv (dlist : List Disc) (n : ℕ) (area : Area) (kx ky : ℝ)
    (h : (push2area dlist n area kx ky).2 = false) :
    (push2area dlist n area kx ky).1 = dlist ∧ in_area (dget dlist n) area := by
  by_cases h1 : (dget dlist n).1.1 - (dget dlist n).2 < area.1.1
  · rw [push2area_snd_true dlist n area kx ky (Or.inl h1)] at h
    exact absurd h (by simp)
  · by_cases h2 : area.1.2 < (dget dlist n).1.1 + (dget dlist n).2
    · rw [push2area_snd_true dlist n area kx ky (Or.inr (Or.inl h2))] at h
      exact absurd h (by simp)
    · by_cases h3 : (dget dlist n).1.2 - (dget dlist n).2 < area.2.1
      · rw [push2area_snd_true dlist n area kx ky (Or.inr (Or.inr (Or.inl h3)))] at h
        exact absurd h (by simp)
      · by_cases h4 : area.2.2 < (dget dlist n).1.2 + (dget dlist n).2
        · rw [push2area_snd_true dlist n area kx ky (Or.inr (Or.inr (Or.inr h4)))] at h
          exact absurd h (by simp)
        · have hin : in_area (dget dlist n) area :=
            ⟨not_lt.mp h1, not_lt.mp h2, not_lt.mp h3, not_lt.mp h4⟩
          rw [push2area_inside_eq dlist n area kx ky hin]
          exact ⟨rfl, hin⟩

/-- Counterexample to C3 as stated: disc of radius 1 at (−1, 1/2), area
[0, 5/2] × [−5, 5].  Width 5/2 exceeds the diameter 2 and the draw
19/10 ∈ (1, 2), the disc violates the lower x bound, yet after the call
the disc sticks out past the upper x bound (new center x = 19/10, upper
extent 29/10 > 5/2): it does not sit fully inside on the corrected axis. -/
theorem push2area_diameter_bound_cex :
    (2 * (dget [(((-1 : ℝ), (1 / 2 : ℝ)), (1 : ℝ))] 0).2 < 5 / 2 - 0) ∧
    (1 < (19 / 10 : ℝ) ∧ (19 / 10 : ℝ) < 2) ∧
    ((dget [(((-1 : ℝ), (1 / 2 : ℝ)), (1 : ℝ))] 0).1.1 -
      (dget [(((-1 : ℝ), (1 / 2 : ℝ)), (1 : ℝ))] 0).2 < 0) ∧
    (push2area [((-1, 1 / 2), 1)] 0 ((0, 5 / 2), (-5, 5)) (19 / 10) (3 / 2)).2 = true ∧
    ¬ ((dget (push2area [((-1, 1 / 2), 1)] 0 ((0, 5 / 2), (-5, 5)) (19 / 10) (3 / 2)).1 0).1.1 +
        (dget (push2area [((-1, 1 / 2), 1)] 0 ((0, 5 / 2), (-5, 5)) (19 / 10) (3 / 2)).1 0).2 ≤
        5 / 2) := by
  have hd : dget [(((-1 : ℝ), (1 / 2 : ℝ)), (1 : ℝ))] 0 = ((-1, 1 / 2), 1) := rfl
  have hget : dget (push2area [((-1, 1 / 2), 1)] 0 ((0, 5 / 2), (-5, 5))
      (19 / 10) (3 / 2)).1 0 = ((19 / 10, 1 / 2), 1) := by
    rw [push2area_dget _ _ _ _ _ (by norm_num), hd]
    norm_num
  refine ⟨by rw [hd]; norm_num, by norm_num, by rw [hd]; norm_num, ?_, ?_⟩
  · apply push2area_snd_true
    rw [hd]
    left
    norm_num
  · rw [hget]
    norm_num

/-- C3 (amended): if the area's extent on each axis is at least
`radius·(1 + k)` for that axis's draw `k ∈ (1, 2)` — in particular if it
is at least `3·radius` — then one `push2area` call on a disc violating a
bound returns `True` and places the disc fully inside the area on every
violated axis. -/
theorem push2area_corrects_violated_axis (dlist : List Disc) (n : ℕ)
    (area : Area) (kx ky : ℝ)
    (hn : n < dlist.length) (hr : 0 ≤ (dget dlist n).2)
    (hkx1 : 1 < kx) (hkx2 : kx < 2) (hky1 : 1 < ky) (hky2 : ky < 2)
    (hwx : (dget dlist n).2 * (1 + kx) ≤ area.1.2 - area.1.1)
    (hwy : (dget dlist n).2 * (1 + ky) ≤ area.2.2 - area.2.1)
    (hviol : ((dget dlist n).1.1 - (dget dlist n).2 < area.1.1 ∨
              area.1.2 < (dget dlist n).1.1 + (dget dlist n).2) ∨
             ((dget dlist n).1.2 - (dget dlist n).2 < area.2.1 ∨
              area.2.2 < (dget dlist n).1.2 + (dget dlist n).2)) :
    (push2area dlist n area kx ky).2 = true ∧
    (((dget dlist n).1.1 - (dget dlist n).2 < area.1.1 ∨
       area.1.2 < (dget dlist n).1.1 + (dget dlist n).2) →
      area.1.1 ≤ (dget (push2area dlist n area kx ky).1 n).1.1 -
          (dget (push2area dlist n area kx ky).1 n).2 ∧
        (dget (push2area dlist n area kx ky).1 n).1.1 +
          (dget (push2area dlist n area kx ky).1 n).2 ≤ area.1.2) ∧
    (((dget dlist n).1.2 - (dget dlist n).2 < area.2.1 ∨
       area.2.2 < (dget dlist n).1.2 + (dget dlist n).2) →
      area.2.1 ≤ (dget (push2area dlist n area kx ky).1 n).1.2 -
          (dget (push2area dlist n area kx ky).1 n).2 ∧
        (dget (push2area dlist n area kx ky).1 n).1.2 +
          (dget (push2area dlist n area kx ky).1 n).2 ≤ area.2.2) := by
  have hget := push2area_dget dlist n area kx ky hn
  have hxc : (dget (push2area dlist n area kx ky).1 n).1.1 =
      (if (dget dlist n).1.1 - (dget dlist n).2 < area.1.1
        then area.1.1 + (dget dlist n).2 * kx
       else if (dget dlist n).1.1 + (dget dlist n).2 > area.1.2
        then area.1.2 - (dget dlist n).2 * kx
       else (dget dlist n).1.1) := by rw [hget]
  have hyc : (dget (push2area dlist n area kx ky).1 n).1.2 =
      (if (dget dlist n).1.2 - (dget dlist n).2 < area.2.1
        then area.2.1 + (dget dlist n).2 * ky
       else if (dget dlist n).1.2 + (dget dlist n).2 > area.2.2
        then area.2.2 - (dget dlist n).2 * ky
       else (dget dlist n).1.2) := by rw [hget]
  have hrc : (dget (push2area dlist n area kx ky).1 n).2 = (dget dlist n).2 := by
    rw [hget]
  refine ⟨?_, ?_, ?_⟩
  · rcases hviol with (h | h) | (h | h)
    · exact push2area_snd_true _ _ _ _ _ (Or.inl h)
    · exact push2area_snd_true _ _ _ _ _ (Or.inr (Or.inl h))
    · exact push2area_snd_true _ _ _ _ _ (Or.inr (Or.inr (Or.inl h)))
    · exact push2area_snd_true _ _ _ _ _ (Or.inr (Or.inr (Or.inr h)))
  · intro hx
    rw [hxc, hrc]
    by_cases hx1 : (dget dlist n).1.1 - (dget dlist n).2 < area.1.1
    · rw [if_pos hx1]
      constructor
      · nlinarith
      · nlinarith
    · rw [if_neg hx1]
      rcases hx with hx | hx
      · exact absurd hx hx1
      · rw [if_pos hx]
        constructor
        · nlinarith
        · nlinarith
  · intro hy
    rw [hyc, hrc]
    by_cases hy1 : (dget dlist n).1.2 - (dget dlist n).2 < area.2.1
    · rw [if_pos hy1]
      constructor
      · nlinarith
      · nlinarith
    · rw [if_neg hy1]
      rcases hy with hy | hy
      · exact absurd hy hy1
      · rw [if_pos hy]
        constructor
        · nlinarith
        · nlinarith

/-- Witness for C3 (amended): the spec's containment unit test, a disc of
radius 2 at (−14, 0) in [−15, 15] × [−15, 15], draws 3/2. -/
theorem push2area_corrects_violated_axis_witness :
    (0 < [(((-14 : ℝ), (0 : ℝ)), (2 : ℝ))].length) ∧
    ((dget [(((-14 : ℝ), (0 : ℝ)), (2 : ℝ))] 0).2 * (1 + (3 / 2 : ℝ)) ≤ 15 - (-15)) ∧
    ((dget [(((-14 : ℝ), (0 : ℝ)), (2 : ℝ))] 0).1.1 -
      (dget [(((-14 : ℝ), (0 : ℝ)), (2 : ℝ))] 0).2 < -15) ∧
    ((push2area [((-14, 0), 2)] 0 ((-15, 15), (-15, 15)) (3 / 2) (3 / 2)).2 = true ∧
      -15 ≤ (dget (push2area [((-14, 0), 2)] 0 ((-15, 15), (-15, 15)) (3 / 2) (3 / 2)).1 0).1.1 -
          (dget (push2area [((-14, 0), 2)] 0 ((-15, 15), (-15, 15)) (3 / 2) (3 / 2)).1 0).2 ∧
        (dget (push2area [((-14, 0), 2)] 0 ((-15, 15), (-15, 15)) (3 / 2) (3 / 2)).1 0).1.1 +
          (dget (push2area [((-14, 0), 2)] 0 ((-15, 15), (-15, 15)) (3 / 2) (3 / 2)).1 0).2 ≤ 15) := by
  have hd : dget [(((-14 : ℝ), (0 : ℝ)), (2 : ℝ))] 0 = ((-14, 0), 2) := rfl
  have hviol : (dget [(((-14 : ℝ), (0 : ℝ)), (2 : ℝ))] 0).1.1 -
      (dget [(((-14 : ℝ), (0 : ℝ)), (2 : ℝ))] 0).2 < -15 := by
    rw [hd]; norm_num
  obtain ⟨hflag, hximp, _⟩ :=
    push2area_corrects_violated_axis [((-14, 0), 2)] 0 ((-15, 15), (-15, 15))
      (3 / 2) (3 / 2) (by norm_num) (by rw [hd]; norm_num)
      (by norm_num) (by norm_num) (by norm_num) (by norm_num)
      (by rw [hd]; norm_num) (by rw [hd]; norm_num)
      (Or.inl (Or.inl hviol))
  exact ⟨by norm_num, by rw [hd]; norm_num, hviol, hflag, hximp (Or.inl hviol)⟩

theorem same_radii_refl (l : List Disc) : same_radii l l :=
  ⟨rfl, fun _ => rfl⟩

theorem same_radii_trans (a b c : List Disc)
    (h1 : same_radii a b) (h2 : same_radii b c) : same_radii a c :=
  ⟨h2.1.trans h1.1, fun i => (h2.2 i).trans (h1.2 i)⟩

theorem sep_ok_symm (dl : List Disc) (i j : ℕ) (h : sep_ok dl i j) :
    sep_ok dl j i := by
  rw [sep_ok] at h ⊢
  rw [add_comm, vec_len_sub_comm]
  exact h

/-- Writing back a moved copy of the disc stored at `n` preserves radii. -/
theorem dget_set_move (l : List Disc) (n : ℕ) (v : Vec) (c : ℝ) (i : ℕ) :
    (dget (l.set n (move_disc (dget l n) v c)) i).2 = (dget l i).2 :=
  dget_set_radius l n (move_disc (dget l n) v c) rfl i

/-- A normal return of `uncollide` keeps the length, every radius, and
every disc other than `n1`, `n2`. -/
theorem uncollide_ok_inv (dlist : List Disc) (n1 n2 : ℕ) (k : ℝ)
    (dl2 : List Disc) (b : Bool)
    (h : uncollide dlist n1 n2 k = Except.ok (dl2, b)) :
    same_radii dlist dl2 ∧ ∀ i, i ≠ n1 → i ≠ n2 → dget dl2 i = dget dlist i := by
  simp only [uncollide] at h
  split at h
  · split at h
    · exact absurd h (by simp)
    · simp only [Except.ok.injEq, Prod.mk.injEq] at h
      obtain ⟨h1, _⟩ := h
      subst h1
      refine ⟨⟨by rw [List.length_set, List.length_set], ?_⟩, ?_⟩
      · intro i
        rw [dget_set_move, dget_set_move]
      · intro i hi1 hi2
        rw [dget_set_ne _ _ _ _ hi2, dget_set_ne _ _ _ _ hi1]
  · simp only [Except.ok.injEq, Prod.mk.injEq] at h
    obtain ⟨h1, _⟩ := h
    subst h1
    exact ⟨same_radii_refl _, fun i _ _ => rfl⟩

/-- The pair sweep preserves length and radii whenever it finishes. -/
theorem unc_fold_same_radii (ru : ℕ → ℕ → ℝ) (m : ℕ) :
    ∀ (cs : List (ℕ × ℕ)) (dlist : List Disc) (idx : ℕ) (flag : Bool)
      (dl2 : List Disc) (fl2 : Bool),
      unc_fold ru m dlist cs idx flag = Except.ok (dl2, fl2) →
      same_radii dlist dl2 := by
  intro cs
  induction cs with
  | nil =>
    intro dlist idx flag dl2 fl2 h
    simp only [unc_fold, Except.ok.injEq, Prod.mk.injEq] at h
    rw [← h.1]
    exact same_radii_refl _
  | cons c rest ih =>
    intro dlist idx flag dl2 fl2 h
    simp only [unc_fold] at h
    cases huc : uncollide dlist c.1 c.2 (ru m idx) with
    | error e =>
      rw [huc] at h
      exact Except.noConfusion h
    | ok r =>
      rw [huc] at h
      exact same_radii_trans _ _ _
        (uncollide_ok_inv dlist c.1 c.2 _ r.1 r.2 (by rw [huc])).1
        (ih r.1 (idx + 1) (flag || r.2) dl2 fl2 h)

/-- A pair sweep that reports no change started with flag `False`, left
the list untouched, and certifies separation of every listed pair. -/
theorem unc_fold_false_inv (ru : ℕ → ℕ → ℝ) (m : ℕ) :
    ∀ (cs : List (ℕ × ℕ)) (dlist : List Disc) (idx : ℕ) (flag : Bool)
      (dl2 : List Disc),
      unc_fold ru m dlist cs idx flag = Except.ok (dl2, false) →
      flag = false ∧ dl2 = dlist ∧ ∀ c ∈ cs, sep_ok dlist c.1 c.2 := by
  intro cs
  induction cs with
  | nil =>
    intro dlist idx flag dl2 h
    simp only [unc_fold, Except.ok.injEq, Prod.mk.injEq] at h
    exact ⟨h.2, h.1.symm, by simp⟩
  | cons c rest ih =>
    intro dlist idx flag dl2 h
    simp only [unc_fold] at h
    cases huc : uncollide dlist c.1 c.2 (ru m idx) with
    | error e =>
      rw [huc] at h
      exact Except.noConfusion h
    | ok r =>
      rw [huc] at h
      obtain ⟨hfl, hdl, hrest⟩ := ih r.1 (idx + 1) (flag || r.2) dl2 h
      have hflag : flag = false := by
        cases hf : flag
        · rfl
        · rw [hf] at hfl; simp at hfl
      have hr2 : r.2 = false := by
        cases hr : r.2
        · rfl
        · rw [hr] at hfl; simp at hfl
      have hr' : uncollide dlist c.1 c.2 (ru m idx) = Except.ok (r.1, false) := by
        rw [huc, ← hr2]
      obtain ⟨hrdl, hsep⟩ := uncollide_ok_false dlist c.1 c.2 _ r.1 hr'
      refine ⟨hflag, by rw [hdl, hrdl], ?_⟩
      intro c' hc'
      rcases List.mem_cons.mp hc' with hc' | hc'
      · rw [hc']
        exact hsep
      · have := hrest c' hc'
        rw [hrdl] at this
        exact this

/-- On a list whose listed pairs are all separated, the pair sweep is the
identity and adds no change flag. -/
theorem unc_fold_all_sep (ru : ℕ → ℕ → ℝ) (m : ℕ) :
    ∀ (cs : List (ℕ × ℕ)) (dlist : List Disc) (idx : ℕ) (flag : Bool),
      (∀ c ∈ cs, sep_ok dlist c.1 c.2) →
      unc_fold ru m dlist cs idx flag = Except.ok (dlist, flag) := by
  intro cs
  induction cs with
  | nil =>
    intro dlist idx flag _
    simp only [unc_fold]
  | cons c rest ih =>
    intro dlist idx flag hsep
    simp only [unc_fold]
    rw [uncollide_no_overlap_eq dlist c.1 c.2 _ (hsep c (List.mem_cons_self c rest))]
    show unc_fold ru m dlist rest (idx + 1) (flag || false) = Except.ok (dlist, flag)
    rw [Bool.or_false]
    exact ih dlist (idx + 1) flag fun c' hc' => hsep c' (List.mem_cons_of_mem _ hc')

theorem ebind_ok {α β : Type} (a : α) (f : α → Except String β) :
    Except.bind (Except.ok a) f = f a := rfl

theorem ebind_err {α β : Type} (e : String) (f : α → Except String β) :
    Except.bind (Except.error e) f = Except.error e := rfl

/-- The containment sweep preserves length and radii. -/
theorem push_fold_same_radii (rpx rpy : ℕ → ℕ → ℝ) (m : ℕ) (area : Area) :
    ∀ (rg : List ℕ) (dlist : List Disc) (flag : Bool),
      same_radii dlist (push_fold rpx rpy m area dlist rg flag).1 := by
  intro rg
  induction rg with
  | nil =>
    intro dlist flag
    exact same_radii_refl _
  | cons n rest ih =>
    intro dlist flag
    simp only [push_fold]
    exact same_radii_trans _ _ _
      ⟨push2area_length dlist n area _ _, fun i => push2area_radii dlist n area _ _ i⟩
      (ih _ _)

/-- A containment sweep that reports no change started with flag `False`,
left the list untouched, and certifies containment of every listed disc. -/
theorem push_fold_false_inv (rpx rpy : ℕ → ℕ → ℝ) (m : ℕ) (area : Area) :
    ∀ (rg : List ℕ) (dlist : List Disc) (flag : Bool) (dl2 : List Disc),
      push_fold rpx rpy m area dlist rg flag = (dl2, false) →
      flag = false ∧ dl2 = dlist ∧ ∀ i ∈ rg, in_area (dget dlist i) area := by
  intro rg
  induction rg with
  | nil =>
    intro dlist flag dl2 h
    simp only [push_fold, Prod.mk.injEq] at h
    exact ⟨h.2, h.1.symm, by simp⟩
  | cons n rest ih =>
    intro dlist flag dl2 h
    simp only [push_fold] at h
    obtain ⟨hfl, hdl, hrest⟩ := ih (push2area dlist n area (rpx m n) (rpy m n)).1
      (flag || (push2area dlist n area (rpx m n) (rpy m n)).2) dl2 h
    have hflag : flag = false := by
      cases hf : flag
      · rfl
      · rw [hf] at hfl; simp at hfl
    have hp2 : (push2area dlist n area (rpx m n) (rpy m n)).2 = false := by
      cases hp : (push2area dlist n area (rpx m n) (rpy m n)).2
      · rfl
      · rw [hp] at hfl; simp at hfl
    obtain ⟨hp1, hin⟩ := push2area_false_inv dlist n area _ _ hp2
    refine ⟨hflag, by rw [hdl, hp1], ?_⟩
    intro i hi
    rcases List.mem_cons.mp hi with hi | hi
    · rw [hi]
      exact hin
    · have := hrest i hi
      rw [hp1] at this
      exact this

/-- On a list already contained in the area, the containment sweep is the
identity and adds no change flag. -/
theorem push_fold_inside (rpx rpy : ℕ → ℕ → ℝ) (m : ℕ) (area : Area) :
    ∀ (rg : List ℕ) (dlist : List Disc) (flag : Bool),
      (∀ i ∈ rg, in_area (dget dlist i) area) →
      push_fold rpx rpy m area dlist rg flag = (dlist, flag) := by
  intro rg
  induction rg with
  | nil =>
    intro dlist flag _
    simp only [push_fold]
  | cons n rest ih =>
    intro dlist flag hin
    simp only [push_fold]
    rw [push2area_inside_eq dlist n area _ _ (hin n (List.mem_cons_self n rest))]
    show push_fold rpx rpy m area dlist rest (flag || false) = (dlist, flag)
    rw [Bool.or_false]
    exact ih dlist flag fun i hi => hin i (List.mem_cons_of_mem _ hi)

/-- Unfolding of one `while` pass. -/
theorem run_loop_succ (ru rpx rpy : ℕ → ℕ → ℝ) (area : Area)
    (cs : List (ℕ × ℕ)) (rg : List ℕ) (dlist : List Disc) (m fuel : ℕ) :
    run_loop ru rpx rpy area cs rg dlist m (fuel + 1) =
      Except.bind (unc_fold ru (m + 1) dlist cs 0 false) fun r1 =>
        if (push_fold rpx rpy (m + 1) area r1.1 rg r1.2).2 then
          Except.bind
            (run_loop ru rpx rpy area cs rg
              (push_fold rpx rpy (m + 1) area r1.1 rg r1.2).1 (m + 1) fuel)
            fun r3 =>
              Except.ok (r3.1, r3.2.1,
                (if m + 1 > 120 then [Msg.warned] else []) ++ r3.2.2)
        else
          Except.ok ((push_fold rpx rpy (m + 1) area r1.1 rg r1.2).1, m + 1,
            if m + 1 > 120 then [Msg.warned] else []) := rfl

/-- The whole loop preserves length and radii whenever it returns. -/
theorem run_loop_same_radii (ru rpx rpy : ℕ → ℕ → ℝ) (area : Area)
    (cs : List (ℕ × ℕ)) (rg : List ℕ) :
    ∀ (fuel : ℕ) (dlist : List Disc) (m : ℕ) (dl2 : List Disc) (m2 : ℕ)
      (ws : List Msg),
      run_loop ru rpx rpy area cs rg dlist m fuel = Except.ok (dl2, m2, ws) →
      same_radii dlist dl2 := by
  intro fuel
  induction fuel with
  | zero =>
    intro dlist m dl2 m2 ws h
    exact Except.noConfusion h
  | succ fuel ih =>
    intro dlist m dl2 m2 ws h
    rw [run_loop_succ] at h
    cases hu : unc_fold ru (m + 1) dlist cs 0 false with
    | error e =>
      rw [hu, ebind_err] at h
      exact Except.noConfusion h
    | ok r1 =>
      rw [hu, ebind_ok] at h
      have hu1 : same_radii dlist r1.1 :=
        unc_fold_same_radii ru (m + 1) cs dlist 0 false r1.1 r1.2 (by rw [hu])
      have hp1 : same_radii r1.1 (push_fold rpx rpy (m + 1) area r1.1 rg r1.2).1 :=
        push_fold_same_radii rpx rpy (m + 1) area rg r1.1 r1.2
      cases hp : (push_fold rpx rpy (m + 1) area r1.1 rg r1.2).2 with
      | true =>
        rw [if_pos hp] at h
        cases hr3 : run_loop ru rpx rpy area cs rg
            (push_fold rpx rpy (m + 1) area r1.1 rg r1.2).1 (m + 1) fuel with
        | error e =>
          rw [hr3, ebind_err] at h
          exact Except.noConfusion h
        | ok t =>
          rw [hr3, ebind_ok] at h
          have ht := Except.ok.inj h
          have hdl2 : t.1 = dl2 := congrArg Prod.fst ht
          rw [← hdl2]
          exact same_radii_trans _ _ _ hu1 (same_radii_trans _ _ _ hp1
            (ih _ (m + 1) t.1 t.2.1 t.2.2 (by rw [hr3])))
      | false =>
        rw [if_neg (by simp [hp])] at h
        have ht := Except.ok.inj h
        have hdl2 : (push_fold rpx rpy (m + 1) area r1.1 rg r1.2).1 = dl2 :=
          congrArg Prod.fst ht
        rw [← hdl2]
        exact same_radii_trans _ _ _ hu1 hp1

/-- Whenever the loop returns, every listed pair of the final list is
separated and every listed disc of the final list is inside the area:
the last pass reported no change, so its checks all passed on the very
list that is returned. -/
theorem run_loop_ok_inv (ru rpx rpy : ℕ → ℕ → ℝ) (area : Area)
    (cs : List (ℕ × ℕ)) (rg : List ℕ) :
    ∀ (fuel : ℕ) (dlist : List Disc) (m : ℕ) (dl2 : List Disc) (m2 : ℕ)
      (ws : List Msg),
      run_loop ru rpx rpy area cs rg dlist m fuel = Except.ok (dl2, m2, ws) →
      (∀ c ∈ cs, sep_ok dl2 c.1 c.2) ∧ (∀ i ∈ rg, in_area (dget dl2 i) area) := by
  intro fuel
  induction fuel with
  | zero =>
    intro dlist m dl2 m2 ws h
    exact Except.noConfusion h
  | succ fuel ih =>
    intro dlist m dl2 m2 ws h
    rw [run_loop_succ] at h
    cases hu : unc_fold ru (m + 1) dlist cs 0 false with
    | error e =>
      rw [hu, ebind_err] at h
      exact Except.noConfusion h
    | ok r1 =>
      rw [hu, ebind_ok] at h
      cases hp : (push_fold rpx rpy (m + 1) area r1.1 rg r1.2).2 with
      | true =>
        rw [if_pos hp] at h
        cases hr3 : run_loop ru rpx rpy area cs rg
            (push_fold rpx rpy (m + 1) area r1.1 rg r1.2).1 (m + 1) fuel with
        | error e =>
          rw [hr3, ebind_err] at h
          exact Except.noConfusion h
        | ok t =>
          rw [hr3, ebind_ok] at h
          have ht := Except.ok.inj h
          have hdl2 : t.1 = dl2 := congrArg Prod.fst ht
          rw [← hdl2]
          exact ih _ (m + 1) t.1 t.2.1 t.2.2 (by rw [hr3])
      | false =>
        rw [if_neg (by simp [hp])] at h
        have ht := Except.ok.inj h
        have hdl2 : (push_fold rpx rpy (m + 1) area r1.1 rg r1.2).1 = dl2 :=
          congrArg Prod.fst ht
        have hpeq : push_fold rpx rpy (m + 1) area r1.1 rg r1.2 =
            ((push_fold rpx rpy (m + 1) area r1.1 rg r1.2).1, false) :=
          Prod.ext_iff.mpr ⟨rfl, hp⟩
        obtain ⟨hr12, hpdl, hinr⟩ := push_fold_false_inv rpx rpy (m + 1) area rg
          r1.1 r1.2 _ hpeq
        have hueq : unc_fold ru (m + 1) dlist cs 0 false = Except.ok (r1.1, false) := by
          rw [hu, ← hr12]
        obtain ⟨_, hudl, hsep⟩ := unc_fold_false_inv ru (m + 1) cs dlist 0 false
          r1.1 hueq
        rw [hudl] at hinr
        rw [← hdl2, hpdl, hudl]
        constructor
        · exact hsep
        · exact hinr

/-- On an already-resolved list one pass changes nothing and the loop
stops immediately with counter `m + 1`. -/
theorem run_loop_fixed (ru rpx rpy : ℕ → ℕ → ℝ) (area : Area)
    (cs : List (ℕ × ℕ)) (rg : List ℕ) (dlist : List Disc) (m fuel : ℕ)
    (hsep : ∀ c ∈ cs, sep_ok dlist c.1 c.2)
    (hin : ∀ i ∈ rg, in_area (dget dlist i) area) :
    run_loop ru rpx rpy area cs rg dlist m (fuel + 1) =
      Except.ok (dlist, m + 1, if m + 1 > 120 then [Msg.warned] else []) := by
  rw [run_loop_succ, unc_fold_all_sep ru (m + 1) cs dlist 0 false hsep, ebind_ok]
  rw [push_fold_inside rpx rpy (m + 1) area rg dlist false hin]
  rw [if_neg (by simp)]

/-- Unfolding of `process_list`. -/
theorem process_list_eq (fuel : ℕ) (ru rpx rpy : ℕ → ℕ → ℝ)
    (dlist : List Disc) (area : Area) :
    process_list fuel ru rpx rpy dlist area =
      Except.bind (run_loop ru rpx rpy area (combs dlist.length)
          (List.range dlist.length) dlist 0 fuel)
        fun r => Except.ok ⟨r.1, r.2.1,
          Msg.removing dlist.length ::
            Msg.checking ((dlist.length - 1) * dlist.length / 2) ::
            (r.2.2 ++ [Msg.done r.2.1]), none⟩ := rfl

/-- A finished `process_list` call preserves the length and every radius. -/
theorem process_list_same_radii (fuel : ℕ) (ru rpx rpy : ℕ → ℕ → ℝ)
    (dlist : List Disc) (area : Area) (r : PLResult)
    (h : process_list fuel ru rpx rpy dlist area = Except.ok r) :
    same_radii dlist r.dlist := by
  rw [process_list_eq] at h
  cases hrl : run_loop ru rpx rpy area (combs dlist.length)
      (List.range dlist.length) dlist 0 fuel with
  | error e =>
    rw [hrl, ebind_err] at h
    exact Except.noConfusion h
  | ok t =>
    rw [hrl, ebind_ok] at h
    rw [← Except.ok.inj h]
    exact run_loop_same_radii ru rpx rpy area _ _ fuel dlist 0 t.1 t.2.1 t.2.2
      (by rw [hrl])

/-- C1: whenever `process_list` returns, the final list satisfies both
invariants — every pair of distinct discs is separated by at least the sum
of the radii, and every disc's extent lies within the area's closed
intervals on both axes (the loop exits only after a full pass in which no
`uncollide` and no `push2area` call reported a change). -/
theorem process_list_establishes_invariants (fuel : ℕ)
    (ru rpx rpy : ℕ → ℕ → ℝ) (dlist : List Disc) (area : Area) (r : PLResult)
    (h : process_list fuel ru rpx rpy dlist area = Except.ok r) :
    no_overlap r.dlist ∧ contained r.dlist area := by
  have hsr := process_list_same_radii fuel ru rpx rpy dlist area r h
  rw [process_list_eq] at h
  cases hrl : run_loop ru rpx rpy area (combs dlist.length)
      (List.range dlist.length) dlist 0 fuel with
  | error e =>
    rw [hrl, ebind_err] at h
    exact Except.noConfusion h
  | ok t =>
    rw [hrl, ebind_ok] at h
    obtain ⟨hsep, hin⟩ := run_loop_ok_inv ru rpx rpy area _ _ fuel dlist 0
      t.1 t.2.1 t.2.2 (by rw [hrl])
    have hr : r.dlist = t.1 := by rw [← Except.ok.inj h]
    have hlen : r.dlist.length = dlist.length := hsr.1
    constructor
    · intro i j hi hj hne
      rw [hlen] at hi hj
      rcases Nat.lt_or_ge i j with hij | hij
      · have hmem : (i, j) ∈ combs dlist.length := (mem_combs _ _ _).mpr ⟨hij, hj⟩
        have hs := hsep (i, j) hmem
        rw [hr]
        exact hs
      · have hji : j < i := lt_of_le_of_ne hij (Ne.symm hne)
        have hmem : (j, i) ∈ combs dlist.length := (mem_combs _ _ _).mpr ⟨hji, hi⟩
        have hs := sep_ok_symm _ _ _ (hsep (j, i) hmem)
        rw [hr]
        exact hs
    · intro i hi
      rw [hlen] at hi
      have hs := hin i (List.mem_range.mpr hi)
      rw [hr]
      exact hs

/-- Witness for C1: the empty list terminates after one pass with both
invariants (vacuously) established. -/
theorem process_list_establishes_invariants_witness :
    (process_list 2 (fun _ _ => (0 : ℝ)) (fun _ _ => (0 : ℝ)) (fun _ _ => (0 : ℝ))
        [] ((0, 1), (0, 1)) =
      Except.ok ⟨[], 1, [Msg.removing 0, Msg.checking 0, Msg.done 1], none⟩) ∧
    (no_overlap ([] : List Disc) ∧ contained [] ((0, 1), (0, 1))) := by
  have hok : process_list 2 (fun _ _ => (0 : ℝ)) (fun _ _ => (0 : ℝ))
      (fun _ _ => (0 : ℝ)) [] ((0, 1), (0, 1)) =
      Except.ok ⟨[], 1, [Msg.removing 0, Msg.checking 0, Msg.done 1], none⟩ := rfl
  exact ⟨hok, process_list_establishes_invariants 2 _ _ _ [] _ _ hok⟩

/-- C7: on a list already satisfying both invariants, `process_list`
changes nothing: the first pass detects no change, the loop exits with
iteration count 1, and the returned list is the input list. -/
theorem process_list_idempotent_on_resolved (fuel : ℕ)
    (ru rpx rpy : ℕ → ℕ → ℝ) (dlist : List Disc) (area : Area)
    (hno : no_overlap dlist) (hc : contained dlist area) :
    process_list (fuel + 1) ru rpx rpy dlist area =
      Except.ok ⟨dlist, 1, [Msg.removing dlist.length,
        Msg.checking ((dlist.length - 1) * dlist.length / 2), Msg.done 1],
        none⟩ := by
  rw [process_list_eq]
  have hsep : ∀ c ∈ combs dlist.length, sep_ok dlist c.1 c.2 := by
    intro c hcm
    obtain ⟨h1, h2⟩ := (mem_combs dlist.length c.1 c.2).mp hcm
    exact hno c.1 c.2 (lt_trans h1 h2) h2 (Nat.ne_of_lt h1)
  have hin : ∀ i ∈ List.range dlist.length, in_area (dget dlist i) area :=
    fun i hi => hc i (List.mem_range.mp hi)
  rw [run_loop_fixed ru rpx rpy area _ _ dlist 0 fuel hsep hin, ebind_ok]
  norm_num

/-- Witness for C7: a single in-bounds disc is a fixed point. -/
theorem process_list_idempotent_witness :
    (no_overlap [(((0 : ℝ), (0 : ℝ)), (1 : ℝ))] ∧
      contained [(((0 : ℝ), (0 : ℝ)), (1 : ℝ))] ((-2, 2), (-2, 2))) ∧
    process_list 3 (fun _ _ => 0) (fun _ _ => 0) (fun _ _ => 0)
        [(((0 : ℝ), (0 : ℝ)), (1 : ℝ))] ((-2, 2), (-2, 2)) =
      Except.ok ⟨[(((0 : ℝ), (0 : ℝ)), (1 : ℝ))], 1,
        [Msg.removing 1, Msg.checking 0, Msg.done 1], none⟩ := by
  have hno : no_overlap [(((0 : ℝ), (0 : ℝ)), (1 : ℝ))] := by
    intro i j hi hj hne
    exfalso
    simp only [List.length_singleton] at hi hj
    omega
  have hcon : contained [(((0 : ℝ), (0 : ℝ)), (1 : ℝ))] ((-2, 2), (-2, 2)) := by
    intro i hi
    simp only [List.length_singleton] at hi
    have hi0 : i = 0 := by omega
    subst hi0
    refine ⟨?_, ?_, ?_, ?_⟩ <;> norm_num [dget]
  exact ⟨⟨hno, hcon⟩,
    process_list_idempotent_on_resolved 2 _ _ _ _ ((-2, 2), (-2, 2)) hno hcon⟩

/-- Counterexample to C5 as stated: on the empty list (where relaxation
terminates after one pass), the value `process_list` hands back to its
caller is `none` — the Python function has no `return` statement — not a
pair (iterations, elapsed); the iteration count appears only in the
printed "Done ..." message. -/
theorem process_list_returns_none_cex :
    process_list 1 (fun _ _ => (0 : ℝ)) (fun _ _ => (0 : ℝ)) (fun _ _ => (0 : ℝ))
        [] ((0, 1), (0, 1)) =
      Except.ok ⟨[], 1, [Msg.removing 0, Msg.checking 0, Msg.done 1], none⟩ := rfl

/-- C5 (amended): `process_list` mutates the list in place and returns
`None` to its caller; the iteration count (and the elapsed wall time,
which the embedding does not model) is only reported by printing the
final "Done ..." message. -/
theorem process_list_reports_none (fuel : ℕ) (ru rpx rpy : ℕ → ℕ → ℝ)
    (dlist : List Disc) (area : Area) (r : PLResult)
    (h : process_list fuel ru rpx rpy dlist area = Except.ok r) :
    r.ret = none ∧ Msg.done r.iters ∈ r.msgs := by
  rw [process_list_eq] at h
  cases hrl : run_loop ru rpx rpy area (combs dlist.length)
      (List.range dlist.length) dlist 0 fuel with
  | error e =>
    rw [hrl, ebind_err] at h
    exact Except.noConfusion h
  | ok t =>
    rw [hrl, ebind_ok] at h
    rw [← Except.ok.inj h]
    exact ⟨rfl, by simp⟩

/-- Witness for C5's amended statement at a concrete terminating input. -/
theorem process_list_reports_none_witness :
    (⟨[], 1, [Msg.removing 0, Msg.checking 0, Msg.done 1], none⟩ : PLResult).ret
        = none ∧
      Msg.done (⟨[], 1, [Msg.removing 0, Msg.checking 0, Msg.done 1],
          none⟩ : PLResult).iters ∈
        (⟨[], 1, [Msg.removing 0, Msg.checking 0, Msg.done 1],
          none⟩ : PLResult).msgs :=
  process_list_reports_none 1 (fun _ _ => 0) (fun _ _ => 0) (fun _ _ => 0)
    [] ((0, 1), (0, 1)) _ rfl

/-- C9: `uncollide` (on a normal return), `push2area`, and `process_list`
(on a normal return) keep the list length and every disc's radius
unchanged: only center coordinates are reassigned, no disc is added or
removed. -/
theorem ops_preserve_radii_and_length :
    (∀ (dlist : List Disc) (n1 n2 : ℕ) (k : ℝ) (dl2 : List Disc) (b : Bool),
      uncollide dlist n1 n2 k = Except.ok (dl2, b) → same_radii dlist dl2) ∧
    (∀ (dlist : List Disc) (n : ℕ) (area : Area) (kx ky : ℝ),
      same_radii dlist (push2area dlist n area kx ky).1) ∧
    (∀ (fuel : ℕ) (ru rpx rpy : ℕ → ℕ → ℝ) (dlist : List Disc) (area : Area)
      (r : PLResult),
      process_list fuel ru rpx rpy dlist area = Except.ok r →
      same_radii dlist r.dlist) :=
  ⟨fun dlist n1 n2 k dl2 b h => (uncollide_ok_inv dlist n1 n2 k dl2 b h).1,
   fun dlist n area kx ky =>
     ⟨push2area_length dlist n area kx ky,
      fun i => push2area_radii dlist n area kx ky i⟩,
   fun fuel ru rpx rpy dlist area r h =>
     process_list_same_radii fuel ru rpx rpy dlist area r h⟩

/-- Witness for C9: each of the three operators applied at a concrete
input. -/
theorem ops_preserve_radii_and_length_witness :
    same_radii [(((0 : ℝ), (0 : ℝ)), (0 : ℝ)), (((1 : ℝ), (0 : ℝ)), (0 : ℝ))]
      [(((0 : ℝ), (0 : ℝ)), (0 : ℝ)), (((1 : ℝ), (0 : ℝ)), (0 : ℝ))] ∧
    same_radii [(((0 : ℝ), (0 : ℝ)), (1 : ℝ))]
      (push2area [(((0 : ℝ), (0 : ℝ)), (1 : ℝ))] 0 ((-2, 2), (-2, 2))
        (3 / 2) (3 / 2)).1 ∧
    same_radii ([] : List Disc)
      (⟨[], 1, [Msg.removing 0, Msg.checking 0, Msg.done 1], none⟩ :
        PLResult).dlist := by
  refine ⟨?_, ?_, ?_⟩
  · apply ops_preserve_radii_and_length.1
      [(((0 : ℝ), (0 : ℝ)), (0 : ℝ)), (((1 : ℝ), (0 : ℝ)), (0 : ℝ))] 0 1 2 _ false
    apply uncollide_no_overlap_eq
    show (0 : ℝ) + 0 ≤ vec_len (add_vec (1, 0) (0, 0) (-1))
    have hb : add_vec ((1 : ℝ), (0 : ℝ)) (0, 0) (-1) = ((1 : ℝ), (0 : ℝ)) := by
      simp only [add_vec, Prod.mk.injEq]
      constructor <;> ring
    rw [hb, vec_len]
    rw [show ((1 : ℝ) ^ 2 + 0 ^ 2 : ℝ) = 1 by norm_num, Real.sqrt_one]
    norm_num
  · exact ops_preserve_radii_and_length.2.1 _ 0 ((-2, 2), (-2, 2)) (3 / 2) (3 / 2)
  · exact ops_preserve_radii_and_length.2.2 1 (fun _ _ => 0) (fun _ _ => 0)
      (fun _ _ => 0) [] ((0, 1), (0, 1)) _ rfl

/-- C10: `uncollide dlist n1 n2` (on a normal return) leaves every disc at
an index other than `n1` and `n2` completely unchanged, and
`push2area dlist n area` leaves every disc at an index other than `n`
completely unchanged. -/
theorem ops_frame_other_indices :
    (∀ (dlist : List Disc) (n1 n2 : ℕ) (k : ℝ) (dl2 : List Disc) (b : Bool),
      uncollide dlist n1 n2 k = Except.ok (dl2, b) →
      ∀ i, i ≠ n1 → i ≠ n2 → dget dl2 i = dget dlist i) ∧
    (∀ (dlist : List Disc) (n : ℕ) (area : Area) (kx ky : ℝ) (i : ℕ), i ≠ n →
      dget (push2area dlist n area kx ky).1 i = dget dlist i) :=
  ⟨fun dlist n1 n2 k dl2 b h => (uncollide_ok_inv dlist n1 n2 k dl2 b h).2,
   fun dlist n area kx ky i hi => push2area_frame dlist n area kx ky i hi⟩

/-- Witness for C10: a third disc survives an `uncollide` of the first
two, and the first disc survives a `push2area` of the second. -/
theorem ops_frame_other_indices_witness :
    dget [(((0 : ℝ), (0 : ℝ)), (1 : ℝ)), (((3 : ℝ), (0 : ℝ)), (1 : ℝ)),
        (((9 : ℝ), (9 : ℝ)), (2 : ℝ))] 2 =
      dget [(((0 : ℝ), (0 : ℝ)), (1 : ℝ)), (((3 : ℝ), (0 : ℝ)), (1 : ℝ)),
        (((9 : ℝ), (9 : ℝ)), (2 : ℝ))] 2 ∧
    dget (push2area [(((0 : ℝ), (0 : ℝ)), (1 : ℝ)), (((-10 : ℝ), (0 : ℝ)), (1 : ℝ))]
        1 ((-2, 2), (-2, 2)) (3 / 2) (3 / 2)).1 0 =
      dget [(((0 : ℝ), (0 : ℝ)), (1 : ℝ)), (((-10 : ℝ), (0 : ℝ)), (1 : ℝ))] 0 := by
  constructor
  · have hsep : ((dget [(((0 : ℝ), (0 : ℝ)), (1 : ℝ)), (((3 : ℝ), (0 : ℝ)), (1 : ℝ)),
        (((9 : ℝ), (9 : ℝ)), (2 : ℝ))] 0).2 +
        (dget [(((0 : ℝ), (0 : ℝ)), (1 : ℝ)), (((3 : ℝ), (0 : ℝ)), (1 : ℝ)),
          (((9 : ℝ), (9 : ℝ)), (2 : ℝ))] 1).2 ≤
        vec_len (add_vec
          (dget [(((0 : ℝ), (0 : ℝ)), (1 : ℝ)), (((3 : ℝ), (0 : ℝ)), (1 : ℝ)),
            (((9 : ℝ), (9 : ℝ)), (2 : ℝ))] 1).1
          (dget [(((0 : ℝ), (0 : ℝ)), (1 : ℝ)), (((3 : ℝ), (0 : ℝ)), (1 : ℝ)),
            (((9 : ℝ), (9 : ℝ)), (2 : ℝ))] 0).1 (-1))) := by
      show (1 : ℝ) + 1 ≤ vec_len (add_vec (3, 0) (0, 0) (-1))
      have hb : add_vec ((3 : ℝ), (0 : ℝ)) (0, 0) (-1) = ((3 : ℝ), (0 : ℝ)) := by
        simp only [add_vec, Prod.mk.injEq]
        constructor <;> ring
      rw [hb, vec_len]
      rw [show ((3 : ℝ) ^ 2 + 0 ^ 2 : ℝ) = 3 ^ 2 by norm_num,
        Real.sqrt_sq (by norm_num : (0 : ℝ) ≤ 3)]
      norm_num
    exact ops_frame_other_indices.1 _ 0 1 (3 / 2) _ false
      (uncollide_no_overlap_eq _ 0 1 (3 / 2) hsep) 2 (by norm_num) (by norm_num)
  · exact ops_frame_other_indices.2 _ 1 ((-2, 2), (-2, 2)) (3 / 2) (3 / 2) 0
      (by norm_num)
